import Mathlib

/-!
Verification development for an industrial conveyor pick-and-place controller.

The system under study consists of a closed-form intercept-time solver
(`equation_solver.py`, function `solve_time`), a conveyor driver
(`conveyor.py`, method `set_velocity`), and a one-cycle orchestration
script (`main.py`) that transforms a camera observation into an arm
motion command and a timed gripper/retract/return/stop schedule.

Modelling conventions:
* Numeric inputs (camera readings, configuration constants) are `ℚ`:
  every IEEE floating-point value is a rational number, and all branch
  conditions in the source compare such inputs.  Internal values that
  involve a square root live in `ℝ`.
* The Python body of `solve_time` raises no exception: `np.sqrt` of a
  negative scalar returns NaN (a `RuntimeWarning`, not an error), and
  `np.float64` division by zero returns ±Inf/NaN.  A non-finite float
  result (NaN or ±Inf) is modelled as `none : Option ℝ`; a finite real
  result as `some t`.
* Commands sent to the devices are modelled as constructors of small
  inductive types; a raised Python exception is an `Except.error`.
-/

namespace PickPlace

/-- A Python exception escaping a call, as observable by the caller. -/
inductive PyExc
  | valueError (msg : String)
deriving DecidableEq

/-- Wire commands of the conveyor driver (`conveyor.py`). -/
inductive ConvCmd
  | setVel (v : ℚ)
  | jogFwd
  | jogBwd
  | jogStop
deriving DecidableEq

/-- `np.sqrt` on a scalar: NaN (modelled `none`) for a negative input;
it raises nothing. -/
noncomputable def npSqrt (x : ℚ) : Option ℝ :=
  if x < 0 then none else some (Real.sqrt (x : ℝ))

/-- `np.float64` division: a zero divisor yields ±Inf/NaN (modelled
`none`); a NaN numerator propagates; it raises nothing. -/
noncomputable def npDiv (n : Option ℝ) (d : ℚ) : Option ℝ :=
  if d = 0 then none else n.map (fun x => x / (d : ℝ))

/-- The expression under the square root in `solve_time`
(`equation_solver.py`, lines 27-35). -/
def radicand (dx dy dz v_con v_max a_max : ℚ) : ℚ :=
  a_max ^ 2 * dx ^ 2 * v_max ^ 2
    - a_max ^ 2 * dy ^ 2 * v_con ^ 2
    + a_max ^ 2 * dy ^ 2 * v_max ^ 2
    - a_max ^ 2 * dz ^ 2 * v_con ^ 2
    + a_max ^ 2 * dz ^ 2 * v_max ^ 2
    - 2 * a_max * dx * v_con * v_max ^ 3
    + v_con ^ 2 * v_max ^ 4

/-- `solve_time` from `equation_solver.py`: the returned float, with
`none` standing for a non-finite (NaN/Inf) result.  The body performs
no validity check and raises no exception. -/
noncomputable def solve_time (dx dy dz v_con v_max a_max : ℚ) : Option ℝ :=
  npDiv
    ((npSqrt (radicand dx dy dz v_con v_max a_max)).map
      (fun s => -((v_max : ℝ) ^ 3 + s - (a_max : ℝ) * (dx : ℝ) * (v_con : ℝ))))
    (a_max * (v_con ^ 2 - v_max ^ 2))

/-- The specification's closed-form intercept-time expression, written
following the spec's own text (section 4.1), for comparison with the
implementation `solve_time`. -/
noncomputable def spec_intercept_time (dx dy dz v_con v_max a_max : ℚ) : ℝ :=
  -((v_max : ℝ) ^ 3
      + Real.sqrt ((a_max : ℝ) ^ 2 * (dx : ℝ) ^ 2 * (v_max : ℝ) ^ 2
          - (a_max : ℝ) ^ 2 * (dy : ℝ) ^ 2 * (v_con : ℝ) ^ 2
          + (a_max : ℝ) ^ 2 * (dy : ℝ) ^ 2 * (v_max : ℝ) ^ 2
          - (a_max : ℝ) ^ 2 * (dz : ℝ) ^ 2 * (v_con : ℝ) ^ 2
          + (a_max : ℝ) ^ 2 * (dz : ℝ) ^ 2 * (v_max : ℝ) ^ 2
          - 2 * (a_max : ℝ) * (dx : ℝ) * (v_con : ℝ) * (v_max : ℝ) ^ 3
          + (v_con : ℝ) ^ 2 * (v_max : ℝ) ^ 4)
      - (a_max : ℝ) * (dx : ℝ) * (v_con : ℝ))
    / ((a_max : ℝ) * ((v_con : ℝ) ^ 2 - (v_max : ℝ) ^ 2))

/-- Error message of the range check in `URConveyor.set_velocity`. -/
def velErrMsg : String := "Velocity has to be in range of 0 to 200"

/-- `URConveyor.set_velocity` (`conveyor.py`): raises `ValueError` when
the velocity is below 0 or above 200 mm/s, otherwise sends exactly one
`set_vel` command.  The raise happens before any send. -/
def set_velocity (velocity : ℚ) : Except PyExc (List ConvCmd) :=
  if velocity < 0 ∨ 200 < velocity then Except.error (PyExc.valueError velErrMsg)
  else Except.ok [ConvCmd.setVel velocity]

/-- Camera-to-arm mounting offset along x, in mm (`main.py`). -/
def cam_offset_x : ℚ := 18515 / 100

/-- Average box width in mm (`main.py`): (100 + 130) / 2. -/
def avg_box_width : ℚ := (100 + 130) / 2

/-- Average box height in mm (`main.py`): (150 + 115) / 2. -/
def avg_box_height : ℚ := (150 + 115) / 2

/-- Transformed along-conveyor offset fed to the solver (`main.py`):
dx = (cam_dy + cam_offset_x + avg_box_width / 3) * 1e-3. -/
def dx_arm (cam_dy : ℚ) : ℚ := (cam_dy + cam_offset_x + avg_box_width / 3) / 1000

/-- Transformed cross-conveyor offset (`main.py`): dy = cam_dx * 1e-3. -/
def dy_arm (cam_dx : ℚ) : ℚ := cam_dx / 1000

/-- Fixed vertical offset (`main.py`):
dz = -(380 - avg_box_height * 2 / 3) * 1e-3. -/
def dz_arm : ℚ := -(380 - avg_box_height * 2 / 3) / 1000

/-- A six-component relative pose as sent to the arm.  The x component
is `Option ℝ` because the solved intercept time can be NaN, which then
contaminates the commanded x displacement. -/
structure ArmPose where
  x : Option ℝ
  y : ℝ
  z : ℝ
  rx : ℝ
  ry : ℝ
  rz : ℝ

/-- Commands issued by the orchestration script (`main.py`), in the
order sent. -/
inductive Cmd
  | conv (c : ConvCmd)
  | armMovel (p : ArmPose) (a v : ℝ)
  | gripper (closed : Bool)
  | armSpeedl (vx vy vz rx ry rz a t : ℝ)
  | armMovelHome

/-- The relative pose commanded by the intercept `movel` in `main.py`:
x is the transformed dx minus the predicted drift `v_con * t`, y and
the rotations are negated per the frame conventions of the script. -/
noncomputable def interceptPose (cam_dx cam_dy cam_theta v_con v_max a_max : ℚ) : ArmPose where
  x := (solve_time (dx_arm cam_dy) (dy_arm cam_dx) dz_arm v_con v_max a_max).map
    (fun t => ((dx_arm cam_dy : ℚ) : ℝ) - (v_con : ℝ) * t)
  y := -((dy_arm cam_dx : ℚ) : ℝ)
  z := ((dz_arm : ℚ) : ℝ)
  rx := -(Real.pi / 6)
  ry := 0
  rz := -((cam_theta : ℝ) * Real.pi / 180)

/-- The command sequence of `main.py` after the conveyor has started
and the observation has arrived: intercept `movel`, gripper close,
retract `speedl`, return-to-home `movel`, conveyor stop. -/
noncomputable def mainTail (cam_dx cam_dy cam_theta v_con v_max a_max : ℚ) : List Cmd :=
  [Cmd.armMovel (interceptPose cam_dx cam_dy cam_theta v_con v_max a_max) (a_max : ℝ) (v_max : ℝ),
   Cmd.gripper true,
   Cmd.armSpeedl (-(v_con : ℝ)) 0 (1 / 2) 0 0 0 (a_max : ℝ) (1 / 2),
   Cmd.armMovelHome,
   Cmd.conv ConvCmd.jogStop]

/-- One cycle of `main.py` (`__main__` block), with the camera reading
and the configuration constants as inputs: start the conveyor, consume
the observation, solve, and issue the motion/gripper/stop sequence.
A `ValueError` from `set_velocity` escapes before any later command. -/
noncomputable def mainRun (cam_dx cam_dy cam_theta v_con v_max a_max : ℚ) :
    Except PyExc (List Cmd) :=
  match set_velocity (v_con * 1000) with
  | Except.error e => Except.error e
  | Except.ok cs =>
      Except.ok (cs.map Cmd.conv
        ++ (Cmd.conv ConvCmd.jogFwd :: mainTail cam_dx cam_dy cam_theta v_con v_max a_max))

/-- Stages of the timed schedule in `main.py`, in source order. -/
inductive SyncEvent
  | moveIntercept
  | gripClose
  | retract
  | returnHome
  | convStop
deriving DecidableEq

/-- An action of the timed schedule together with the monotonic-clock
reading at which it is issued. -/
structure TimedEvent where
  time : ℚ
  event : SyncEvent
deriving DecidableEq

/-- Semantics of the spin loop `while clock() - t_ref < d: pass` in
`main.py`, entered at clock reading `i`: the loop exits at the first
reading `j` at which the elapsed time reaches the deadline `d`. -/
def spinExit (clock : ℕ → ℚ) (t_ref d : ℚ) (i j : ℕ) : Prop :=
  i ≤ j ∧ t_ref + d ≤ clock j ∧ ∀ k < j, i ≤ k → clock k < t_ref + d

/-- Semantics of `time.sleep(dur)` entered at reading `i` and resuming
at reading `j`: at least `dur` elapses. -/
def sleepExit (clock : ℕ → ℚ) (dur : ℚ) (i j : ℕ) : Prop :=
  i ≤ j ∧ clock i + dur ≤ clock j

/-- The timed trace of `main.py` lines 59-83: the intercept `movel` is
issued immediately at reading `i0`; the gripper close is released at
the exit `j1` of the first spin wait; the retract `speedl` at the exit
`j2` of the second; the return-to-home `movel` and the conveyor stop
follow back-to-back at the resume point `j3` of the half-second sleep. -/
def syncTrace (clock : ℕ → ℚ) (i0 j1 j2 j3 : ℕ) : List TimedEvent :=
  [⟨clock i0, SyncEvent.moveIntercept⟩,
   ⟨clock j1, SyncEvent.gripClose⟩,
   ⟨clock j2, SyncEvent.retract⟩,
   ⟨clock j3, SyncEvent.returnHome⟩,
   ⟨clock j3, SyncEvent.convStop⟩]

/-- A concrete monotone clock (one unit per reading), used to
instantiate the timed-schedule theorems. -/
def natClock : ℕ → ℚ := fun n => (n : ℚ)

/-- The numerator of the intercept formula is positive when the
conveyor speed is smaller in magnitude than the arm speed limit.
Here `s` stands for the square root of the radicand. -/
theorem intercept_numer_pos (dx vc vm am s : ℝ) (h0 : -vm < vc) (h1 : vc < vm) (h2 : 0 < am)
    (hs : 0 ≤ s) (hsq : (am * dx * vm - vc * vm ^ 2) ^ 2 ≤ s ^ 2) :
    0 < vm ^ 3 + s - am * dx * vc := by
  have hvm : 0 < vm := by linarith
  have habs : |am * dx * vm - vc * vm ^ 2| ≤ s := by
    calc |am * dx * vm - vc * vm ^ 2|
        = Real.sqrt ((am * dx * vm - vc * vm ^ 2) ^ 2) := (Real.sqrt_sq_eq_abs _).symm
      _ ≤ Real.sqrt (s ^ 2) := Real.sqrt_le_sqrt hsq
      _ = s := Real.sqrt_sq hs
  have hX : am * dx * vm - vc * vm ^ 2 ≤ s := le_trans (le_abs_self _) habs
  have hX' : -(am * dx * vm - vc * vm ^ 2) ≤ s := le_trans (neg_le_abs _) habs
  rcases lt_trichotomy vc 0 with hvc | hvc | hvc
  · rcases le_or_lt 0 (am * dx) with hdx | hdx
    · have h4 : am * dx * vc ≤ 0 := mul_nonpos_iff.mpr (Or.inl ⟨hdx, le_of_lt hvc⟩)
      have := pow_pos hvm 3
      linarith
    · have key : 0 < (vm + vc) * (vm ^ 2 - am * dx) := by
        apply mul_pos (by linarith)
        have := pow_pos hvm 2
        linarith
      nlinarith [hX', key]
  · rw [hvc]
    have := pow_pos hvm 3
    nlinarith [hs]
  · rcases le_or_lt (am * dx) 0 with hdx | hdx
    · have h4 : am * dx * vc ≤ 0 := mul_nonpos_iff.mpr (Or.inr ⟨hdx, le_of_lt hvc⟩)
      have := pow_pos hvm 3
      linarith
    · have key : 0 < (vm - vc) * (vm ^ 2 + am * dx) := by
        apply mul_pos (by linarith)
        have := pow_pos hvm 2
        linarith
      nlinarith [hX, key]

/-- The full intercept expression is positive when the conveyor speed
is smaller in magnitude than the arm speed limit and the acceleration
limit is positive, for any non-negative radicand value `R` of the
solver's shape. -/
theorem intercept_formula_pos (dx dy dz vc vm am R : ℝ)
    (h0 : -vm < vc) (h1 : vc < vm) (h2 : 0 < am)
    (hRdef : R = am ^ 2 * dx ^ 2 * vm ^ 2 - am ^ 2 * dy ^ 2 * vc ^ 2
      + am ^ 2 * dy ^ 2 * vm ^ 2 - am ^ 2 * dz ^ 2 * vc ^ 2 + am ^ 2 * dz ^ 2 * vm ^ 2
      - 2 * am * dx * vc * vm ^ 3 + vc ^ 2 * vm ^ 4)
    (hR : 0 ≤ R) :
    0 < -(vm ^ 3 + Real.sqrt R - am * dx * vc) / (am * (vc ^ 2 - vm ^ 2)) := by
  have hvm : 0 < vm := by linarith
  have hv2 : vc ^ 2 < vm ^ 2 := by
    have hmm : 0 < (vm - vc) * (vm + vc) :=
      mul_pos (by linarith) (by linarith)
    nlinarith [hmm]
  have hs : 0 ≤ Real.sqrt R := Real.sqrt_nonneg R
  have hs2 : Real.sqrt R ^ 2 = R := Real.sq_sqrt hR
  have hsq : (am * dx * vm - vc * vm ^ 2) ^ 2 ≤ Real.sqrt R ^ 2 := by
    have hprod : 0 ≤ am ^ 2 * (vm ^ 2 - vc ^ 2) * (dy ^ 2 + dz ^ 2) :=
      mul_nonneg (mul_nonneg (sq_nonneg am) (by linarith)) (by positivity)
    have hid : Real.sqrt R ^ 2 - (am * dx * vm - vc * vm ^ 2) ^ 2
        = am ^ 2 * (vm ^ 2 - vc ^ 2) * (dy ^ 2 + dz ^ 2) := by
      rw [hs2, hRdef]; ring
    linarith
  have hN : 0 < vm ^ 3 + Real.sqrt R - am * dx * vc :=
    intercept_numer_pos dx vc vm am (Real.sqrt R) h0 h1 h2 hs hsq
  have hD : 0 < am * (vm ^ 2 - vc ^ 2) := mul_pos h2 (by linarith)
  have hDneg : am * (vc ^ 2 - vm ^ 2) < 0 := by nlinarith
  have heq : -(vm ^ 3 + Real.sqrt R - am * dx * vc) / (am * (vc ^ 2 - vm ^ 2))
      = (vm ^ 3 + Real.sqrt R - am * dx * vc) / (am * (vm ^ 2 - vc ^ 2)) := by
    rw [div_eq_div_iff hDneg.ne hD.ne']
    ring
  rw [heq]
  exact div_pos hN hD

/-- `solve_time` returns a positive finite value whenever the conveyor
speed is smaller in magnitude than the arm speed limit and the
acceleration limit is positive; the radicand is then automatically
non-negative. -/
theorem solve_time_pos_aux (dx dy dz vc vm am : ℚ)
    (h0 : -vm < vc) (h1 : vc < vm) (h2 : 0 < am) :
    ∃ t : ℝ, solve_time dx dy dz vc vm am = some t ∧ 0 < t := by
  have hv2 : vc ^ 2 < vm ^ 2 := by
    have hmm : 0 < (vm - vc) * (vm + vc) :=
      mul_pos (by linarith) (by linarith)
    nlinarith [hmm]
  have hR : 0 ≤ radicand dx dy dz vc vm am := by
    have hid : radicand dx dy dz vc vm am
        = vm ^ 2 * (am * dx - vc * vm) ^ 2 + am ^ 2 * (vm ^ 2 - vc ^ 2) * (dy ^ 2 + dz ^ 2) := by
      unfold radicand; ring
    rw [hid]
    have hp : 0 ≤ am ^ 2 * (vm ^ 2 - vc ^ 2) * (dy ^ 2 + dz ^ 2) :=
      mul_nonneg (mul_nonneg (sq_nonneg am) (by linarith)) (by positivity)
    nlinarith [sq_nonneg (am * dx - vc * vm), sq_nonneg vm]
  have hd : am * (vc ^ 2 - vm ^ 2) ≠ 0 := by
    have : am * (vc ^ 2 - vm ^ 2) < 0 := by nlinarith
    exact this.ne
  have h0' : -(vm : ℝ) < (vc : ℝ) := by exact_mod_cast h0
  have h1' : (vc : ℝ) < (vm : ℝ) := by exact_mod_cast h1
  have h2' : (0 : ℝ) < (am : ℝ) := by exact_mod_cast h2
  have hR' : (0 : ℝ) ≤ ((radicand dx dy dz vc vm am : ℚ) : ℝ) := by exact_mod_cast hR
  have hRdef : ((radicand dx dy dz vc vm am : ℚ) : ℝ)
      = (am : ℝ) ^ 2 * (dx : ℝ) ^ 2 * (vm : ℝ) ^ 2
        - (am : ℝ) ^ 2 * (dy : ℝ) ^ 2 * (vc : ℝ) ^ 2
        + (am : ℝ) ^ 2 * (dy : ℝ) ^ 2 * (vm : ℝ) ^ 2
        - (am : ℝ) ^ 2 * (dz : ℝ) ^ 2 * (vc : ℝ) ^ 2
        + (am : ℝ) ^ 2 * (dz : ℝ) ^ 2 * (vm : ℝ) ^ 2
        - 2 * (am : ℝ) * (dx : ℝ) * (vc : ℝ) * (vm : ℝ) ^ 3
        + (vc : ℝ) ^ 2 * (vm : ℝ) ^ 4 := by
    unfold radicand; push_cast; ring
  have hpos := intercept_formula_pos (dx : ℝ) (dy : ℝ) (dz : ℝ) (vc : ℝ) (vm : ℝ) (am : ℝ)
    ((radicand dx dy dz vc vm am : ℚ) : ℝ) h0' h1' h2' hRdef hR'
  refine ⟨-((vm : ℝ) ^ 3 + Real.sqrt ((radicand dx dy dz vc vm am : ℚ) : ℝ)
      - (am : ℝ) * (dx : ℝ) * (vc : ℝ)) / ((am : ℝ) * ((vc : ℝ) ^ 2 - (vm : ℝ) ^ 2)),
    ?_, hpos⟩
  unfold solve_time npSqrt npDiv
  rw [if_neg (not_lt.mpr hR), if_neg hd]
  simp only [Option.map_some']
  congr 1
  push_cast
  ring

/-- C2: with `v_conveyor = v_max` (input dx=1, dy=2, dz=3, v_con=5,
v_max=5, a_max=4) the denominator is zero and `solve_time` returns a
non-finite float (modelled `none`) instead of signalling `DomainError`:
the body contains no check and `np.float64` division by zero does not
raise. -/
theorem solve_time_vcon_eq_vmax_returns_nan :
    solve_time 1 2 3 5 5 4 = none := by
  unfold solve_time npDiv
  rw [if_pos (by norm_num)]

/-- C3: with a negative radicand (input dx=0, dy=2, dz=0, v_con=3,
v_max=1, a_max=1, radicand = -23) `solve_time` returns NaN (modelled
`none`) instead of signalling `UnreachableTargetError`: `np.sqrt` of a
negative scalar yields NaN with only a warning, and the NaN propagates
through the division. -/
theorem solve_time_neg_radicand_returns_nan :
    solve_time 0 2 0 3 1 1 = none := by
  unfold solve_time npSqrt npDiv
  rw [if_pos (show radicand 0 2 0 3 1 1 < 0 by unfold radicand; norm_num)]
  rw [if_neg (by norm_num)]
  rfl

/-- C10: `solve_time` depends on dy and dz only through their squares:
swapping dy and dz, or negating either, leaves the result unchanged. -/
theorem solve_time_dy_dz_symmetry (dx dy dz v_con v_max a_max : ℚ) :
    solve_time dx dy dz v_con v_max a_max = solve_time dx dz dy v_con v_max a_max ∧
    solve_time dx dy dz v_con v_max a_max = solve_time dx (-dy) dz v_con v_max a_max ∧
    solve_time dx dy dz v_con v_max a_max = solve_time dx dy (-dz) v_con v_max a_max := by
  refine ⟨?_, ?_, ?_⟩
  · unfold solve_time
    rw [show radicand dx dz dy v_con v_max a_max
          = radicand dx dy dz v_con v_max a_max from by unfold radicand; ring]
  · unfold solve_time
    rw [show radicand dx (-dy) dz v_con v_max a_max
          = radicand dx dy dz v_con v_max a_max from by unfold radicand; ring]
  · unfold solve_time
    rw [show radicand dx dy (-dz) v_con v_max a_max
          = radicand dx dy dz v_con v_max a_max from by unfold radicand; ring]

/-- C9: `set_velocity` raises `ValueError` exactly when the requested
velocity is outside [0, 200] mm/s, sending nothing in that case, and
sends exactly the one `set_vel` command otherwise. -/
theorem set_velocity_range (v : ℚ) :
    (v < 0 ∨ 200 < v → set_velocity v = Except.error (PyExc.valueError velErrMsg)) ∧
    (0 ≤ v → v ≤ 200 → set_velocity v = Except.ok [ConvCmd.setVel v]) := by
  constructor
  · intro h
    unfold set_velocity
    rw [if_pos h]
  · intro h1 h2
    unfold set_velocity
    rw [if_neg (by push_neg; exact ⟨h1, h2⟩)]

/-- Witness for C9 at the concrete velocities 300 (rejected) and 100
(accepted). -/
theorem set_velocity_range_witness :
    set_velocity 300 = Except.error (PyExc.valueError velErrMsg) ∧
    set_velocity 100 = Except.ok [ConvCmd.setVel 100] :=
  ⟨(set_velocity_range 300).1 (Or.inr (by norm_num)),
   (set_velocity_range 100).2 (by norm_num) (by norm_num)⟩

/-- C1 (counterexample): at dx=dy=dz=0, v_con=-1, v_max=1, a_max=1 the
claim's preconditions hold (a_max nonzero, v_con distinct from v_max,
radicand 1 non-negative) yet `solve_time` divides by zero — the
denominator vanishes at `v_con = -v_max` too — and returns a non-finite
value rather than the value of the spec's expression. -/
theorem solve_time_spec_form_cex :
    (1 : ℚ) ≠ 0 ∧ (-1 : ℚ) ≠ 1 ∧ (0 : ℚ) ≤ radicand 0 0 0 (-1) 1 1 ∧
    solve_time 0 0 0 (-1) 1 1 = none ∧
    ∀ r : ℝ, solve_time 0 0 0 (-1) 1 1 ≠ some r := by
  have hnone : solve_time 0 0 0 (-1) 1 1 = none := by
    unfold solve_time npDiv
    rw [if_pos (by norm_num)]
  exact ⟨by norm_num, by norm_num, by unfold radicand; norm_num, hnone,
    fun r h => by rw [hnone] at h; exact Option.noConfusion h⟩

/-- C1 (amended): under the additional precondition `v_con ≠ -v_max`
(making the denominator genuinely nonzero), `solve_time` returns
exactly the spec's closed-form expression, with the same sign
conventions. -/
theorem solve_time_eq_spec_form (dx dy dz vc vm am : ℚ)
    (ha : am ≠ 0) (hv : vc ≠ vm) (hv' : vc ≠ -vm)
    (hrad : 0 ≤ radicand dx dy dz vc vm am) :
    solve_time dx dy dz vc vm am = some (spec_intercept_time dx dy dz vc vm am) := by
  have hd : am * (vc ^ 2 - vm ^ 2) ≠ 0 := by
    apply mul_ne_zero ha
    intro h
    have hfac : (vc - vm) * (vc + vm) = 0 := by linear_combination h
    rcases mul_eq_zero.mp hfac with h' | h'
    · exact hv (by linarith)
    · exact hv' (by linarith)
  unfold solve_time npSqrt npDiv spec_intercept_time
  rw [if_neg (not_lt.mpr hrad), if_neg hd]
  simp only [Option.map_some']
  congr 1
  rw [show ((radicand dx dy dz vc vm am : ℚ) : ℝ)
      = (am : ℝ) ^ 2 * (dx : ℝ) ^ 2 * (vm : ℝ) ^ 2
        - (am : ℝ) ^ 2 * (dy : ℝ) ^ 2 * (vc : ℝ) ^ 2
        + (am : ℝ) ^ 2 * (dy : ℝ) ^ 2 * (vm : ℝ) ^ 2
        - (am : ℝ) ^ 2 * (dz : ℝ) ^ 2 * (vc : ℝ) ^ 2
        + (am : ℝ) ^ 2 * (dz : ℝ) ^ 2 * (vm : ℝ) ^ 2
        - 2 * (am : ℝ) * (dx : ℝ) * (vc : ℝ) * (vm : ℝ) ^ 3
        + (vc : ℝ) ^ 2 * (vm : ℝ) ^ 4
    from by unfold radicand; push_cast; ring]
  push_cast
  ring

/-- Witness for the amended C1 at dx=dy=dz=0, v_con=0, v_max=1,
a_max=1, where the result is 1. -/
theorem solve_time_eq_spec_form_witness :
    (1 : ℚ) ≠ 0 ∧ (0 : ℚ) ≠ 1 ∧ (0 : ℚ) ≠ -1 ∧ (0 : ℚ) ≤ radicand 0 0 0 0 1 1 ∧
    solve_time 0 0 0 0 1 1 = some (spec_intercept_time 0 0 0 0 1 1) :=
  ⟨by norm_num, by norm_num, by norm_num, by unfold radicand; norm_num,
   solve_time_eq_spec_form 0 0 0 0 1 1 (by norm_num) (by norm_num) (by norm_num)
     (by unfold radicand; norm_num)⟩

/-- C5 (counterexample): at v_con=-5, v_max=1, a_max=1, dx=dy=dz=0 the
claim's hypotheses hold (v_con below v_max, positive a_max, radicand
25 non-negative) yet the solver returns -1/4, which is not positive:
the claim fails for negative conveyor speeds of magnitude above the
arm speed limit. -/
theorem solve_time_pos_cex :
    (-5 : ℚ) < 1 ∧ (0 : ℚ) < 1 ∧ (0 : ℚ) ≤ radicand 0 0 0 (-5) 1 1 ∧
    solve_time 0 0 0 (-5) 1 1 = some (-(1 / 4) : ℝ) ∧ ¬ (0 < (-(1 / 4) : ℝ)) := by
  refine ⟨by norm_num, by norm_num, by unfold radicand; norm_num, ?_, by norm_num⟩
  unfold solve_time npSqrt npDiv
  rw [if_neg (show ¬ radicand 0 0 0 (-5) 1 1 < 0 by unfold radicand; norm_num),
    if_neg (by norm_num)]
  simp only [Option.map_some']
  congr 1
  rw [show ((radicand 0 0 0 (-5) 1 1 : ℚ) : ℝ) = 5 ^ 2 by unfold radicand; norm_num,
    Real.sqrt_sq (by norm_num : (0 : ℝ) ≤ 5)]
  norm_num

/-- C5 (amended): with the conveyor speed additionally bounded below
by -v_max (so -v_max < v_con < v_max), positive a_max, and
non-negative radicand, the solver returns a finite positive time. -/
theorem solve_time_pos_of_abs_vcon_lt_vmax (dx dy dz vc vm am : ℚ)
    (h0 : -vm < vc) (h1 : vc < vm) (h2 : 0 < am)
    (hrad : 0 ≤ radicand dx dy dz vc vm am) :
    ∃ t : ℝ, solve_time dx dy dz vc vm am = some t ∧ 0 < t :=
  solve_time_pos_aux dx dy dz vc vm am h0 h1 h2

/-- Witness for the amended C5 with a negative conveyor speed inside
the allowed band: dx=-5, dy=dz=0, v_con=-1/2, v_max=1, a_max=1 (the
returned value is 4). -/
theorem solve_time_pos_of_abs_vcon_lt_vmax_witness :
    -(1 : ℚ) < -(1 / 2) ∧ -(1 / 2 : ℚ) < 1 ∧ (0 : ℚ) < 1 ∧
    (0 : ℚ) ≤ radicand (-5) 0 0 (-(1 / 2)) 1 1 ∧
    ∃ t : ℝ, solve_time (-5) 0 0 (-(1 / 2)) 1 1 = some t ∧ 0 < t :=
  ⟨by norm_num, by norm_num, by norm_num, by unfold radicand; norm_num,
   solve_time_pos_of_abs_vcon_lt_vmax (-5) 0 0 (-(1 / 2)) 1 1 (by norm_num) (by norm_num)
     (by norm_num) (by unfold radicand; norm_num)⟩

/-- C8: on the reference inputs dx=0.170, dy=0.005, dz=-0.2,
v_con=0.03, v_max=1.5, a_max=2.5 the solver returns a finite positive
value, and the call is deterministic: equal inputs give equal
results. -/
theorem solve_time_reference_scenario :
    (∃ t : ℝ, solve_time (17 / 100) (1 / 200) (-(1 / 5)) (3 / 100) (3 / 2) (5 / 2)
        = some t ∧ 0 < t) ∧
    solve_time (17 / 100) (1 / 200) (-(1 / 5)) (3 / 100) (3 / 2) (5 / 2)
      = solve_time (17 / 100) (1 / 200) (-(1 / 5)) (3 / 100) (3 / 2) (5 / 2) :=
  ⟨solve_time_pos_aux _ _ _ _ _ _ (by norm_num) (by norm_num) (by norm_num), rfl⟩

/-- C4: on a configuration the conveyor accepts (conveyor speed 0.2
m/s, i.e. exactly 200 mm/s) with arm limits v_max=0.1, a_max=1 and the
camera reading (0, 0, 0), the solver's radicand is negative, so
`solve_time` yields NaN (modelled `none`) — yet `main.py`, which has
no error handling, still issues the intercept `movel`, with a NaN x
component in the commanded pose. -/
theorem main_issues_movel_on_solver_failure :
    solve_time (dx_arm 0) (dy_arm 0) dz_arm (1 / 5) (1 / 10) 1 = none ∧
    ∃ l, mainRun 0 0 0 (1 / 5) (1 / 10) 1 = Except.ok l ∧
      ∃ p a v, Cmd.armMovel p a v ∈ l ∧ p.x = none := by
  have hradneg : radicand (dx_arm 0) (dy_arm 0) dz_arm (1 / 5) (1 / 10) 1 < 0 := by
    unfold radicand dx_arm dy_arm dz_arm cam_offset_x avg_box_width avg_box_height
    norm_num
  have hnone : solve_time (dx_arm 0) (dy_arm 0) dz_arm (1 / 5) (1 / 10) 1 = none := by
    unfold solve_time npSqrt npDiv
    rw [if_pos hradneg, if_neg (by norm_num : ¬ ((1 : ℚ) * ((1 / 5) ^ 2 - (1 / 10) ^ 2) = 0))]
    simp only [Option.map_none']
  refine ⟨hnone, Cmd.conv (ConvCmd.setVel (1 / 5 * 1000))
      :: Cmd.conv ConvCmd.jogFwd :: mainTail 0 0 0 (1 / 5) (1 / 10) 1, ?_,
    interceptPose 0 0 0 (1 / 5) (1 / 10) 1, ((1 : ℚ) : ℝ), (((1 : ℚ) / 10 : ℚ) : ℝ), ?_, ?_⟩
  · unfold mainRun set_velocity
    rw [if_neg (by norm_num : ¬ ((1 : ℚ) / 5 * 1000 < 0 ∨ 200 < (1 : ℚ) / 5 * 1000))]
    rfl
  · unfold mainTail
    simp
  · unfold interceptPose
    rw [hnone]
    rfl

/-- C6: whenever the in-range conveyor start succeeds and the solver
returns a finite t, the intercept `movel` commanded by `main.py`
carries an along-conveyor component equal to dx - v_con * t, where dx
is exactly the transformed offset that was fed to the solver: the pose
anticipates the target's drift during the approach. -/
theorem movel_x_anticipates_drift (cam_dx cam_dy cam_theta vc vm am : ℚ) (t : ℝ)
    (hr : ¬ (vc * 1000 < 0 ∨ 200 < vc * 1000))
    (ht : solve_time (dx_arm cam_dy) (dy_arm cam_dx) dz_arm vc vm am = some t) :
    ∃ l, mainRun cam_dx cam_dy cam_theta vc vm am = Except.ok l ∧
      Cmd.armMovel
        ⟨some (((dx_arm cam_dy : ℚ) : ℝ) - (vc : ℝ) * t),
         -((dy_arm cam_dx : ℚ) : ℝ), ((dz_arm : ℚ) : ℝ),
         -(Real.pi / 6), 0, -((cam_theta : ℝ) * Real.pi / 180)⟩ (am : ℝ) (vm : ℝ) ∈ l := by
  have hpose : interceptPose cam_dx cam_dy cam_theta vc vm am
      = ⟨some (((dx_arm cam_dy : ℚ) : ℝ) - (vc : ℝ) * t),
         -((dy_arm cam_dx : ℚ) : ℝ), ((dz_arm : ℚ) : ℝ),
         -(Real.pi / 6), 0, -((cam_theta : ℝ) * Real.pi / 180)⟩ := by
    unfold interceptPose
    rw [ht]
    rfl
  refine ⟨Cmd.conv (ConvCmd.setVel (vc * 1000))
      :: Cmd.conv ConvCmd.jogFwd :: mainTail cam_dx cam_dy cam_theta vc vm am, ?_, ?_⟩
  · unfold mainRun set_velocity
    rw [if_neg hr]
    rfl
  · rw [← hpose]
    unfold mainTail
    simp

/-- Witness for C6 with camera reading (0, 46591/60, 0) and config
v_con=0, v_max=1, a_max=2, where the transformed dx is 1, the radicand
is (25/12)^2, and the solver returns 37/24. -/
theorem movel_x_anticipates_drift_witness :
    ¬ ((0 : ℚ) * 1000 < 0 ∨ 200 < (0 : ℚ) * 1000) ∧
    solve_time (dx_arm (46591 / 60)) (dy_arm 0) dz_arm 0 1 2 = some ((37 : ℝ) / 24) ∧
    ∃ l, mainRun 0 (46591 / 60) 0 0 1 2 = Except.ok l ∧
      Cmd.armMovel
        ⟨some (((dx_arm (46591 / 60) : ℚ) : ℝ) - ((0 : ℚ) : ℝ) * ((37 : ℝ) / 24)),
         -((dy_arm 0 : ℚ) : ℝ), ((dz_arm : ℚ) : ℝ),
         -(Real.pi / 6), 0, -(((0 : ℚ) : ℝ) * Real.pi / 180)⟩ ((2 : ℚ) : ℝ) ((1 : ℚ) : ℝ) ∈ l := by
  have hdx : dx_arm (46591 / 60) = 1 := by
    unfold dx_arm cam_offset_x avg_box_width; norm_num
  have hdy : dy_arm 0 = 0 := by unfold dy_arm; norm_num
  have hdz : dz_arm = -(7 / 24) := by unfold dz_arm avg_box_height; norm_num
  have ht : solve_time (dx_arm (46591 / 60)) (dy_arm 0) dz_arm 0 1 2 = some ((37 : ℝ) / 24) := by
    rw [hdx, hdy, hdz]
    unfold solve_time npSqrt npDiv
    rw [if_neg (show ¬ radicand 1 0 (-(7 / 24)) 0 1 2 < 0 by unfold radicand; norm_num),
      if_neg (by norm_num : ¬ ((2 : ℚ) * ((0 : ℚ) ^ 2 - 1 ^ 2) = 0))]
    simp only [Option.map_some']
    congr 1
    rw [show ((radicand 1 0 (-(7 / 24)) 0 1 2 : ℚ) : ℝ) = (25 / 12) ^ 2 by
        unfold radicand; norm_num,
      Real.sqrt_sq (by norm_num : (0 : ℝ) ≤ 25 / 12)]
    norm_num
  exact ⟨by norm_num, ht,
    movel_x_anticipates_drift 0 (46591 / 60) 0 0 1 2 ((37 : ℝ) / 24) (by norm_num) ht⟩

/-- C7: under the spin-wait and sleep semantics relative to the single
reference instant t_ref and a monotone clock, the timed schedule of
`main.py` issues its five actions in the fixed order move, grip,
retract, return-home, conveyor-stop with no skips; the gripper close
is released no earlier than 0.625 * t_intercept after t_ref, the
retract no earlier than t_intercept after t_ref, the return-to-home at
least the 0.5 s retreat duration after the retract, and the conveyor
stop only after the return command, with issue times nondecreasing
along the whole trace. -/
theorem sync_schedule_order (clock : ℕ → ℚ) (t_ref t_int : ℚ) (i0 j1 j2 j3 : ℕ)
    (hmono : Monotone clock)
    (h1 : spinExit clock t_ref (5 / 8 * t_int) i0 j1)
    (h2 : spinExit clock t_ref t_int j1 j2)
    (h3 : sleepExit clock (1 / 2) j2 j3) :
    (syncTrace clock i0 j1 j2 j3).map TimedEvent.event
      = [SyncEvent.moveIntercept, SyncEvent.gripClose, SyncEvent.retract,
         SyncEvent.returnHome, SyncEvent.convStop] ∧
    List.Chain' (fun a b => a.time ≤ b.time) (syncTrace clock i0 j1 j2 j3) ∧
    t_ref + 5 / 8 * t_int ≤ clock j1 ∧
    t_ref + t_int ≤ clock j2 ∧
    clock j2 + 1 / 2 ≤ clock j3 := by
  obtain ⟨hi1, hd1, -⟩ := h1
  obtain ⟨hi2, hd2, -⟩ := h2
  obtain ⟨hi3, hd3⟩ := h3
  refine ⟨rfl, ?_, hd1, hd2, hd3⟩
  have c01 : clock i0 ≤ clock j1 := hmono hi1
  have c12 : clock j1 ≤ clock j2 := hmono hi2
  have c23 : clock j2 ≤ clock j3 := hmono hi3
  unfold syncTrace
  simp only [List.chain'_cons, List.chain'_singleton, and_true]
  exact ⟨c01, c12, c23, le_refl _⟩

/-- Witness for C7 with the unit-step clock, t_ref = 0, t_intercept =
8, the first spin exiting at reading 5, the second at reading 8, and
the sleep resuming at reading 9. -/
theorem sync_schedule_order_witness :
    (syncTrace natClock 0 5 8 9).map TimedEvent.event
      = [SyncEvent.moveIntercept, SyncEvent.gripClose, SyncEvent.retract,
         SyncEvent.returnHome, SyncEvent.convStop] ∧
    List.Chain' (fun a b => a.time ≤ b.time) (syncTrace natClock 0 5 8 9) ∧
    (0 : ℚ) + 5 / 8 * 8 ≤ natClock 5 ∧
    (0 : ℚ) + 8 ≤ natClock 8 ∧
    natClock 8 + 1 / 2 ≤ natClock 9 := by
  refine sync_schedule_order natClock 0 8 0 5 8 9 (fun a b h => ?_) ?_ ?_ ?_
  · show (a : ℚ) ≤ (b : ℚ)
    exact_mod_cast h
  · refine ⟨by norm_num, by unfold natClock; norm_num, ?_⟩
    intro k hk hk0
    unfold natClock
    interval_cases k <;> norm_num
  · refine ⟨by norm_num, by unfold natClock; norm_num, ?_⟩
    intro k hk hk0
    unfold natClock
    interval_cases k <;> norm_num
  · exact ⟨by norm_num, by unfold natClock; norm_num⟩

end PickPlace
